import Mathlib

/-!
Verification of the 2sf2rom core: the PSF container parser/writer
(`PSFFile` in the C++ sources) and the recursive psflib resolution and
ROM-assembly algorithm (`load_2sf` in `2sf2rom.cpp`).

Byte strings are modelled as `List Nat` (each element one byte).  All
machine-integer arithmetic of the C++ source is mirrored with explicit
`% 2 ^ 32` where 32-bit overflow matters.
-/

namespace TwoSF

/-! ## Little-endian 32-bit integers (`byteio.hpp`) -/

/-- Read a 32-bit little-endian integer from the first four bytes of a list
(missing bytes read as zero, mirroring a zero-initialised buffer). -/
def readLE4 (l : List Nat) : Nat :=
  l.getD 0 0 + 256 * l.getD 1 0 + 65536 * l.getD 2 0 + 16777216 * l.getD 3 0

/-- Write a natural number as four little-endian bytes (the value is
truncated to 32 bits, like the `uint32_t` casts in the source). -/
def natLE4 (n : Nat) : List Nat :=
  [n % 256, n / 256 % 256, n / 65536 % 256, n / 16777216 % 256]

/-! ## CRC32 (zlib `crc32` with seed 0, polynomial 0xEDB88320) -/

/-- One shift step of the reflected CRC32 computation. -/
def crcRound (c : Nat) : Nat :=
  if c % 2 = 1 then (c / 2) ^^^ 0xEDB88320 else c / 2

/-- Process one input byte of the CRC32 computation (eight shift rounds). -/
def crcByte (c b : Nat) : Nat :=
  crcRound (crcRound (crcRound (crcRound (crcRound (crcRound (crcRound (crcRound (c ^^^ b))))))))

/-- zlib-compatible CRC32 of a byte sequence, seeded with 0 as in
`crc32(0L, data, size)` in `load_2sf`. -/
def crc32 (data : List Nat) : Nat :=
  (data.foldl crcByte 0xFFFFFFFF) ^^^ 0xFFFFFFFF

/-! ## Tag text block (`PSFFile` constructor, lines 145-212, and
`PSFFile::write`, lines 309-327) -/

/-- Split a byte string into lines exactly as both the parse loop
(`find("\n")` with `tag_start_offset = tag_end_offset + 1`) and the
serialiser's `std::getline` loop enumerate them: every maximal segment is a
line, an unterminated final segment is still a line, and the empty segment
after a terminating final newline is not. -/
def glSplit : List Nat → List (List Nat)
  | [] => []
  | c :: rest =>
    if c = 10 then [] :: glSplit rest
    else
      match glSplit rest with
      | [] => [[c]]
      | h :: t => (c :: h) :: t

/-- Trim bytes with value at most 0x20 from both ends of a byte string
(the coarse ASCII trimming of the tag parser). -/
def trimBytes (l : List Nat) : List Nat :=
  ((l.dropWhile (fun c => c ≤ 32)).reverse.dropWhile (fun c => c ≤ 32)).reverse

/-- Parse one tag line: locate the first `=` byte; if absent the line is
ignored, otherwise yield the trimmed key and trimmed value. -/
def parseLine (line : List Nat) : Option (List Nat × List Nat) :=
  if line.any (fun c => c = 61) then
    some (trimBytes (line.takeWhile (fun c => c ≠ 61)),
          trimBytes ((line.dropWhile (fun c => c ≠ 61)).drop 1))
  else
    none

/-- First-match lookup in the tag association list. -/
def lookupTag : List (List Nat × List Nat) → List Nat → Option (List Nat)
  | [], _ => none
  | p :: rest, k => if p.1 = k then some p.2 else lookupTag rest k

/-- Record one parsed `key=value` line: if the key is already present,
append a newline byte plus the new value to the existing value, otherwise
insert a new entry at the end. -/
def addTag (m : List (List Nat × List Nat)) (k v : List Nat) : List (List Nat × List Nat) :=
  match lookupTag m k with
  | some _ => m.map (fun p => if p.1 = k then (p.1, p.2 ++ 10 :: v) else p)
  | none => m ++ [(k, v)]

/-- Process one line of the tag block: lines without `=` are ignored,
others are recorded through `addTag`. -/
def tagStep (m : List (List Nat × List Nat)) (line : List Nat) : List (List Nat × List Nat) :=
  match parseLine line with
  | none => m
  | some kv => addTag m kv.1 kv.2

/-- Parse a whole tag text block into the tag association list. -/
def parseTagBlock (s : List Nat) : List (List Nat × List Nat) :=
  (glSplit s).foldl tagStep []

/-- Serialise the tag map: for each entry, for each `getline` line of the
stored value, emit `key=` followed by the ENTIRE stored value and a
newline (the historical quirk of `PSFFile::write`). -/
def writeTags (m : List (List Nat × List Nat)) : List Nat :=
  (m.map (fun p => ((glSplit p.2).map (fun _ => p.1 ++ 61 :: (p.2 ++ [10]))).flatten)).flatten

/-! ## PSF container (`psf_file.hpp` / `PSFFile`) -/

/-- The fixed 3-byte signature "PSF". -/
def psfSignature : List Nat := [80, 83, 70]

/-- The fixed 5-byte tag marker "[TAG]". -/
def tagMarker : List Nat := [91, 84, 65, 71, 93]

/-- The parsed PSF container. -/
structure PSFFile where
  version : Nat
  reserved : List Nat
  compressed_exe : List Nat
  compressed_exe_crc32 : Nat
  tags : List (List Nat × List Nat)
  deriving DecidableEq, Repr

/-- The failure taxonomy of the core, each failure annotated with the
originating file path. `undefinedBehavior` marks the out-of-bounds
`std::copy` that the C++ permits but whose effect is undefined; `outOfFuel`
is the recursion bound artifact of the shallow embedding (unreachable
from a top-level load, whose depth is capped at 10). -/
inductive Err where
  | formatError (path : List Nat)
  | truncatedError (path : List Nat)
  | integrityError (path : List Nat)
  | decompressionError (path : List Nat)
  | sizeLimitError (path : List Nat)
  | outOfBoundsError (path : List Nat)
  | corruptDataError (path : List Nat)
  | depthExceededError (path : List Nat)
  | ioError (path : List Nat)
  | undefinedBehavior (path : List Nat)
  | outOfFuel (path : List Nat)
  deriving DecidableEq, Repr

/-- Parse raw file bytes as a PSF container, mirroring the
`PSFFile::PSFFile(const std::string &)` constructor. -/
def parsePSF (fn : List Nat) (d : List Nat) : Except Err PSFFile :=
  if d.length < 3 then .error (.truncatedError fn)
  else if d.take 3 ≠ psfSignature then .error (.formatError fn)
  else if d.length < 16 then .error (.truncatedError fn)
  else
    let version := d.getD 3 0
    let reservedSize := readLE4 (d.drop 4)
    let exeSize := readLE4 (d.drop 8)
    let crc := readLE4 (d.drop 12)
    let mandatory := 16 + reservedSize + exeSize
    if mandatory > d.length then .error (.truncatedError fn)
    else
      let reserved := (d.drop 16).take reservedSize
      let exe := (d.drop (16 + reservedSize)).take exeSize
      let tags :=
        if mandatory + 5 ≤ d.length ∧ (d.drop mandatory).take 5 = tagMarker then
          parseTagBlock (d.drop (mandatory + 5))
        else []
      .ok ⟨version, reserved, exe, crc, tags⟩

/-- Serialise a PSF container, mirroring `PSFFile::write`. -/
def serializePSF (c : PSFFile) : List Nat :=
  psfSignature ++ [c.version % 256]
    ++ natLE4 c.reserved.length ++ natLE4 c.compressed_exe.length
    ++ natLE4 c.compressed_exe_crc32
    ++ c.reserved ++ c.compressed_exe
    ++ (if c.tags = [] then [] else tagMarker ++ writeTags c.tags)

/-! ## Assembler (`load_2sf` in `2sf2rom.cpp`) -/

/-- The maximum NDS ROM size (128 MiB), `kNDSRomMaxSize`. -/
def kNDSRomMaxSize : Nat := 134217728

/-- The maximum psflib nesting level, `kPSFLibMaxNestLevel`. -/
def kPSFLibMaxNestLevel : Nat := 10

/-- Decimal digit rendering of a natural number (ASCII bytes), used for the
numeric suffix of `_libN` tag names. -/
def natDigitsAux : Nat → Nat → List Nat
  | 0, _ => []
  | fuel + 1, n => if n < 10 then [48 + n] else natDigitsAux fuel (n / 10) ++ [48 + n % 10]

/-- Decimal digit rendering of a natural number as ASCII bytes. -/
def natDigits (n : Nat) : List Nat := natDigitsAux (n + 1) n

/-- The name of the i-th library tag: `_lib` for i = 1, `_lib2`, `_lib3`,
... beyond (the bytes of the string built in the lib loop). -/
def libTagName (i : Nat) : List Nat :=
  [95, 108, 105, 98] ++ (if i ≤ 1 then [] else natDigits i)

/-- Count the consecutive `_lib`, `_lib2`, ... tags present starting at
index `i`; the fuel is always sufficient because the present tag names are
pairwise distinct keys of the finite tag list. -/
def numLibsAux (tags : List (List Nat × List Nat)) : Nat → Nat → Nat
  | 0, _ => 0
  | fuel + 1, i =>
    match lookupTag tags (libTagName i) with
    | none => 0
    | some _ => 1 + numLibsAux tags fuel (i + 1)

/-- The number of library references the lib loop of `load_2sf` follows. -/
def numLibs (tags : List (List Nat × List Nat)) : Nat :=
  numLibsAux tags (tags.length + 1) 1

/-- The library paths followed by the lib loop, in ascending tag order. -/
def libPaths (tags : List (List Nat × List Nat)) : List (List Nat) :=
  (List.range (numLibs tags)).map (fun j => (lookupTag tags (libTagName (j + 1))).getD [])

/-- Mirror of `std::vector::resize(n, 0)`: truncate, or grow with zero fill. -/
def romResize (rom : List Nat) (n : Nat) : List Nat :=
  if n ≤ rom.length then rom.take n else rom ++ List.replicate (n - rom.length) 0

/-- Overwrite `data.length` bytes of `rom` starting at absolute offset
`off` (callers establish `off + data.length ≤ rom.length`). -/
def romWrite (rom : List Nat) (off : Nat) (data : List Nat) : List Nat :=
  rom.take off ++ data ++ rom.drop (off + data.length)

/-- The payload-placement step of `load_2sf` (decompress, read the 8-byte
header, size checks, copy), shared between the first-load and later-load
branches around the resize/bounds alternative.  `off`, `sz` are the header
fields; the 32-bit wrap of `load_offset + load_size` in the C++ comparison
and of `8 + load_size` in the corruption check is made explicit.  The copy
itself is defined only within bounds; outside them the C++ `std::copy` is
undefined behaviour, reported here as `Err.undefinedBehavior`. -/
def copyStep (fn : List Nat) (exe : List Nat) (off sz : Nat) (rom : List Nat) :
    Except Err (List Nat) :=
  if exe.length < (8 + sz) % 4294967296 then .error (.corruptDataError fn)
  else if 8 + sz ≤ exe.length ∧ off + sz ≤ rom.length then
    .ok (romWrite rom off ((exe.drop 8).take sz))
  else .error (.undefinedBehavior fn)

/-- The lib loop of `load_2sf`: recursively load each referenced library
left to right, passing the incoming `first_load` flag to the first
iteration only, and threading the ROM buffer through. -/
def loadLibs (loadF : List Nat → List Nat → Nat → Bool → Except Err (List Nat)) :
    List (List Nat) → List Nat → Nat → Bool → Except Err (List Nat)
  | [], rom, _, _ => .ok rom
  | p :: rest, rom, nest, first =>
    match loadF p rom (nest + 1) first with
    | .error e => .error e
    | .ok rom2 => loadLibs loadF rest rom2 nest false

/-- Mirror of `load_2sf(filename, rom, lib_nest_level, first_load)`: the recursive
resolution and compositing algorithm.  `fs` maps a path to raw file bytes
(`none` for a missing file) and `dec` is the DEFLATE collaborator
(`none` for a corrupt stream).  The `fuel` argument only bounds the
shallow-embedding recursion; a top-level load with fuel 11 can never
exhaust it because of the depth ceiling. -/
def load2sf (fs : List Nat → Option (List Nat)) (dec : List Nat → Option (List Nat)) :
    Nat → List Nat → List Nat → Nat → Bool → Except Err (List Nat)
  | 0, fn, _, _, _ => .error (.outOfFuel fn)
  | fuel + 1, fn, rom, nest, first =>
    if kPSFLibMaxNestLevel ≤ nest then .error (.depthExceededError fn)
    else
      match fs fn with
      | none => .error (.ioError fn)
      | some bytes =>
        match parsePSF fn bytes with
        | .error e => .error e
        | .ok psf =>
          if psf.compressed_exe_crc32 ≠ crc32 psf.compressed_exe then
            .error (.integrityError fn)
          else
            match loadLibs (load2sf fs dec fuel) (libPaths psf.tags) rom nest first with
            | .error e => .error e
            | .ok rom2 =>
              let first2 := first && (libPaths psf.tags).isEmpty
              match dec psf.compressed_exe with
              | none => .error (.decompressionError fn)
              | some exe =>
                if exe.length < 8 then .error (.formatError fn)
                else
                  let off := readLE4 exe
                  let sz := readLE4 (exe.drop 4)
                  if kNDSRomMaxSize < (off + sz) % 4294967296 then
                    .error (.sizeLimitError fn)
                  else if first2 then
                    copyStep fn exe off sz (romResize rom2 ((off + sz) % 4294967296))
                  else if rom2.length < (off + sz) % 4294967296 then
                    .error (.outOfBoundsError fn)
                  else copyStep fn exe off sz rom2

/-- A top-level load: empty ROM, nest level 0, first load, with fuel 11
(one unit per nesting level, which the depth ceiling caps at 10). -/
def load2sfTop (fs dec : List Nat → Option (List Nat)) (fn : List Nat) :
    Except Err (List Nat) :=
  load2sf fs dec 11 fn [] 0 true

/-! ## Instrumented assembler: same algorithm, also returning the list of
written ranges `(load_offset, load_size)` in write order (ghost data used
to state the frame property of the composite buffer). -/

/-- Variant of `copyStep` also reporting the written range. -/
def copyStepT (fn : List Nat) (exe : List Nat) (off sz : Nat) (rom : List Nat) :
    Except Err (List Nat × List (Nat × Nat)) :=
  if exe.length < (8 + sz) % 4294967296 then .error (.corruptDataError fn)
  else if 8 + sz ≤ exe.length ∧ off + sz ≤ rom.length then
    .ok (romWrite rom off ((exe.drop 8).take sz), [(off, sz)])
  else .error (.undefinedBehavior fn)

/-- The lib loop, accumulating the ranges written by the library subtrees. -/
def loadLibsT
    (loadF : List Nat → List Nat → Nat → Bool → Except Err (List Nat × List (Nat × Nat))) :
    List (List Nat) → List Nat → Nat → Bool → Except Err (List Nat × List (Nat × Nat))
  | [], rom, _, _ => .ok (rom, [])
  | p :: rest, rom, nest, first =>
    match loadF p rom (nest + 1) first with
    | .error e => .error e
    | .ok (rom2, r1) =>
      match loadLibsT loadF rest rom2 nest false with
      | .error e => .error e
      | .ok (rom3, r2) => .ok (rom3, r1 ++ r2)

/-- Variant of `load2sf` instrumented with the list of written ranges. -/
def load2sfT (fs : List Nat → Option (List Nat)) (dec : List Nat → Option (List Nat)) :
    Nat → List Nat → List Nat → Nat → Bool → Except Err (List Nat × List (Nat × Nat))
  | 0, fn, _, _, _ => .error (.outOfFuel fn)
  | fuel + 1, fn, rom, nest, first =>
    if kPSFLibMaxNestLevel ≤ nest then .error (.depthExceededError fn)
    else
      match fs fn with
      | none => .error (.ioError fn)
      | some bytes =>
        match parsePSF fn bytes with
        | .error e => .error e
        | .ok psf =>
          if psf.compressed_exe_crc32 ≠ crc32 psf.compressed_exe then
            .error (.integrityError fn)
          else
            match loadLibsT (load2sfT fs dec fuel) (libPaths psf.tags) rom nest first with
            | .error e => .error e
            | .ok (rom2, r1) =>
              let first2 := first && (libPaths psf.tags).isEmpty
              match dec psf.compressed_exe with
              | none => .error (.decompressionError fn)
              | some exe =>
                if exe.length < 8 then .error (.formatError fn)
                else
                  let off := readLE4 exe
                  let sz := readLE4 (exe.drop 4)
                  if kNDSRomMaxSize < (off + sz) % 4294967296 then
                    .error (.sizeLimitError fn)
                  else
                    match
                      (if first2 then
                        copyStepT fn exe off sz (romResize rom2 ((off + sz) % 4294967296))
                      else if rom2.length < (off + sz) % 4294967296 then
                        .error (.outOfBoundsError fn)
                      else copyStepT fn exe off sz rom2) with
                    | .error e => .error e
                    | .ok (rom3, r2) => .ok (rom3, r1 ++ r2)

/-! ## Directory-context variant (the second `load_2sf` in the sources,
lines 296-410): the process working directory is modelled as explicit
state of type `List Nat` (a path), threaded through the recursion.  The
collaborators `absF cwd path` (resolve `path` against the working
directory `cwd`, `path_getabspath`) and `dirF p` (`path_dirname`) are
parameters.  Before each recursive library load the working directory is
set to the referencing file's directory, and it is restored on both the
success path and the error path (the `try`/`catch`/rethrow). -/

/-- The lib loop of the directory-context variant.  `basedir` is the
referencing file's directory and `pwd` the directory saved on entry; the
recursive call is entered with the working directory set to `basedir`,
and `pwd` is restored after it on both exits. -/
def loadLibsD
    (loadF : List Nat → List Nat → Nat → Bool → List Nat → Except Err (List Nat) × List Nat) :
    List (List Nat) → List Nat → Nat → Bool → List Nat → List Nat →
      Except Err (List Nat) × List Nat
  | [], rom, _, _, _, pwd => (.ok rom, pwd)
  | p :: rest, rom, nest, first, basedir, pwd =>
    match loadF p rom (nest + 1) first basedir with
    | (.error e, _) => (.error e, pwd)
    | (.ok rom2, _) => loadLibsD loadF rest rom2 nest false basedir pwd

/-- The directory-context `load_2sf`: same algorithm, with the working
directory as explicit state (last component of argument and result). -/
def load2sfD (fs : List Nat → Option (List Nat)) (dec : List Nat → Option (List Nat))
    (absF : List Nat → List Nat → List Nat) (dirF : List Nat → List Nat) :
    Nat → List Nat → List Nat → Nat → Bool → List Nat → Except Err (List Nat) × List Nat
  | 0, fn, _, _, _, cwd => (.error (.outOfFuel fn), cwd)
  | fuel + 1, fn, rom, nest, first, cwd =>
    if kPSFLibMaxNestLevel ≤ nest then (.error (.depthExceededError fn), cwd)
    else
      let pwd := cwd
      let basedir := dirF (absF cwd fn)
      match fs (absF cwd fn) with
      | none => (.error (.ioError fn), pwd)
      | some bytes =>
        match parsePSF fn bytes with
        | .error e => (.error e, pwd)
        | .ok psf =>
          if psf.compressed_exe_crc32 ≠ crc32 psf.compressed_exe then
            (.error (.integrityError fn), pwd)
          else
            match
              loadLibsD (load2sfD fs dec absF dirF fuel) (libPaths psf.tags)
                rom nest first basedir pwd with
            | (.error e, cwd2) => (.error e, cwd2)
            | (.ok rom2, cwd2) =>
              let first2 := first && (libPaths psf.tags).isEmpty
              match dec psf.compressed_exe with
              | none => (.error (.decompressionError fn), cwd2)
              | some exe =>
                if exe.length < 8 then (.error (.formatError fn), cwd2)
                else
                  let off := readLE4 exe
                  let sz := readLE4 (exe.drop 4)
                  if kNDSRomMaxSize < (off + sz) % 4294967296 then
                    (.error (.sizeLimitError fn), cwd2)
                  else if first2 then
                    (copyStep fn exe off sz (romResize rom2 ((off + sz) % 4294967296)), cwd2)
                  else if rom2.length < (off + sz) % 4294967296 then
                    (.error (.outOfBoundsError fn), cwd2)
                  else (copyStep fn exe off sz rom2, cwd2)

/-! ## Concrete fixtures used by witnesses and counterexamples.
File names are short byte strings: the root file is `[114]` ("r"), the
library `[108]` ("l"), the single gap file `[115]` ("s"); chain files are
`[70, 48+i]` ("F0".."F:"). -/

/-- Root container of the two-file merge scenario: one `_lib` tag naming
the library file `[108]`, compressed payload `[65]`. -/
def exRootPSF : PSFFile := ⟨0x24, [], [65], crc32 [65], [([95, 108, 105, 98], [108])]⟩

/-- Library container of the two-file merge scenario. -/
def exLibPSF : PSFFile := ⟨0x24, [], [66], crc32 [66], []⟩

/-- The two-file filesystem of the merge scenario. -/
def exFs : List Nat → Option (List Nat) := fun n =>
  if n = [114] then some (serializePSF exRootPSF)
  else if n = [108] then some (serializePSF exLibPSF)
  else none

/-- The decompressor of the merge scenario: the root payload declares
offset 0, size 4, body 00 01 02 03; the library offset 4, size 2,
body CA FE. -/
def exDec : List Nat → Option (List Nat) := fun b =>
  if b = [65] then some [0, 0, 0, 0, 4, 0, 0, 0, 0, 1, 2, 3]
  else if b = [66] then some [4, 0, 0, 0, 2, 0, 0, 0, 202, 254]
  else none

/-- Overlap-scenario decompressor: the library declares offset 2, size 2,
body CA FE (so it sizes the buffer to 4 and writes bytes 2..3); the root
declares offset 0, size 4, body 00 01 02 03, overwriting them. -/
def ovDec : List Nat → Option (List Nat) := fun b =>
  if b = [65] then some [0, 0, 0, 0, 4, 0, 0, 0, 0, 1, 2, 3]
  else if b = [66] then some [2, 0, 0, 0, 2, 0, 0, 0, 202, 254]
  else none

/-- A container whose stored CRC32 field is off by one. -/
def badCrcPSF : PSFFile := ⟨0x24, [], [65], crc32 [65] + 1, []⟩

/-- Filesystem holding only the bad-CRC container at `[114]`. -/
def badCrcFs : List Nat → Option (List Nat) := fun n =>
  if n = [114] then some (serializePSF badCrcPSF) else none

/-- A plain single-file container with compressed payload `[67]`. -/
def soloPSF : PSFFile := ⟨0x24, [], [67], crc32 [67], []⟩

/-- Filesystem holding only `soloPSF` at `[114]`. -/
def soloFs : List Nat → Option (List Nat) := fun n =>
  if n = [114] then some (serializePSF soloPSF) else none

/-- Decompressor declaring `load_offset = 2^32 - 1`, `load_size = 1`
(8 header bytes, no body): the exact sum wraps to 0 in 32 bits. -/
def wrapDec : List Nat → Option (List Nat) := fun b =>
  if b = [67] then some [255, 255, 255, 255, 1, 0, 0, 0] else none

/-- Decompressor declaring `load_offset = 0`, `load_size = 129 MiB`. -/
def bigDec : List Nat → Option (List Nat) := fun b =>
  if b = [67] then some [0, 0, 0, 0, 0, 0, 16, 8] else none

/-- Decompressor declaring offset 0, size 0 (payload is just the header). -/
def nilDec : List Nat → Option (List Nat) := fun b =>
  if b = [67] then some [0, 0, 0, 0, 0, 0, 0, 0] else none

/-- Name of the i-th chain file. -/
def chName (i : Nat) : List Nat := [70, 48 + i]

/-- The i-th chain container: files 0..9 reference the next file through
`_lib`; file 10 has no tags. -/
def chPSF (i : Nat) : PSFFile :=
  ⟨0x24, [], [67], crc32 [67], if i < 10 then [([95, 108, 105, 98], chName (i + 1))] else []⟩

/-- The eleven chain files, keyed by name. -/
def chainFiles : List (List Nat × List Nat) :=
  (List.range 11).map (fun i => (chName i, serializePSF (chPSF i)))

/-- Filesystem of the chain scenario. -/
def chainFs : List Nat → Option (List Nat) := fun n => lookupTag chainFiles n

/-- A container whose payload declares offset 2, size 1, body `[7]`,
leaving bytes 0 and 1 of the composite image untouched. -/
def gapPSF : PSFFile := ⟨0x24, [], [68], crc32 [68], []⟩

/-- Filesystem holding only `gapPSF` at `[115]`. -/
def gapFs : List Nat → Option (List Nat) := fun n =>
  if n = [115] then some (serializePSF gapPSF) else none

/-- Decompressor of the gap scenario. -/
def gapDec : List Nat → Option (List Nat) := fun b =>
  if b = [68] then some [2, 0, 0, 0, 1, 0, 0, 0, 7] else none

deriving instance DecidableEq for Except

/-! ## Claim theorems -/

/-- Claim C7: every invocation of the recursive resolve procedure with
nesting depth at least 10 fails with `DepthExceededError` before reading
or parsing the file (the statement quantifies over every filesystem, so it
holds even when the file does not exist); consequently a chain of eleven
nested `_lib` references fails with `DepthExceededError` at the eleventh
file, while a chain of ten files is not rejected for depth (it loads
successfully). -/
theorem c7_depth_limit :
    (∀ (fs dec : List Nat → Option (List Nat)) (fuel : Nat) (fn rom : List Nat)
      (nest : Nat) (first : Bool), kPSFLibMaxNestLevel ≤ nest →
      load2sf fs dec (fuel + 1) fn rom nest first = .error (.depthExceededError fn)) ∧
    load2sfTop chainFs nilDec (chName 0) = .error (.depthExceededError (chName 10)) ∧
    load2sfTop chainFs nilDec (chName 1) = .ok [] := by
  refine ⟨fun fs dec fuel fn rom nest first h => ?_, by decide, by decide⟩
  simp [load2sf, h]

/-- Witness for C7: the depth guard fires for a concrete invocation at
nesting level 10 over the empty filesystem. -/
theorem c7_depth_limit_w :
    load2sf (fun _ => none) (fun _ => none) 1 [99] [] 10 true
      = .error (.depthExceededError [99]) :=
  c7_depth_limit.1 (fun _ => none) (fun _ => none) 0 [99] [] 10 true (Nat.le_refl 10)

/-- Claim C1 counterexample: a root container whose decompressed payload
header declares `load_offset = 2^32 - 1` and `load_size = 1` has an exact
integer sum of 2^32, far above 128 MiB, yet the load does NOT fail with
`SizeLimitError`: the 32-bit sum in the C++ comparison wraps to 0, the
size guard passes, and the load fails later with `CorruptDataError`
instead. -/
theorem c1_size_guard_cex :
    readLE4 [255, 255, 255, 255, 1, 0, 0, 0] = 4294967295 ∧
    readLE4 ([255, 255, 255, 255, 1, 0, 0, 0].drop 4) = 1 ∧
    kNDSRomMaxSize < 4294967295 + 1 ∧
    load2sfTop soloFs wrapDec [114] = .error (.corruptDataError [114]) := by
  refine ⟨by decide, by decide, by decide, by decide⟩

/-- Claim C1, amended: the guard compares the 32-bit wrapped sum, so the
load fails with `SizeLimitError` whenever a call that reaches its payload
step (file present, parse and CRC pass, all libraries load) declares
`load_offset + load_size` exceeding 128 MiB AND below 2^32 (for wrapping
sums the guard can pass, see the counterexample); depth and the
first-load flag are arbitrary.  A declared sum of 129 MiB fails. -/
theorem c1_size_guard_amended :
    ∀ (fs dec : List Nat → Option (List Nat)) (fuel : Nat) (fn rom : List Nat)
      (nest : Nat) (first : Bool) (bytes : List Nat) (psf : PSFFile)
      (rom2 exe : List Nat),
      nest < kPSFLibMaxNestLevel →
      fs fn = some bytes →
      parsePSF fn bytes = .ok psf →
      psf.compressed_exe_crc32 = crc32 psf.compressed_exe →
      loadLibs (load2sf fs dec fuel) (libPaths psf.tags) rom nest first = .ok rom2 →
      dec psf.compressed_exe = some exe →
      8 ≤ exe.length →
      kNDSRomMaxSize < readLE4 exe + readLE4 (exe.drop 4) →
      readLE4 exe + readLE4 (exe.drop 4) < 4294967296 →
      load2sf fs dec (fuel + 1) fn rom nest first = .error (.sizeLimitError fn) := by
  intro fs dec fuel fn rom nest first bytes psf rom2 exe
  intro hnest hfs hparse hcrc hlibs hdec hlen hbig hlt
  simp only [load2sf, Nat.not_le.mpr hnest, if_false, hfs, hparse, hcrc, ne_eq,
    not_true_eq_false, if_false, hlibs, hdec, Nat.not_lt.mpr hlen, if_false,
    Nat.mod_eq_of_lt hlt, if_pos hbig]

/-- Witness for C1: a concrete root container declaring
`load_offset = 0`, `load_size = 129 MiB` fails with `SizeLimitError`. -/
theorem c1_size_guard_w :
    load2sf soloFs bigDec 11 [114] [] 0 true = .error (.sizeLimitError [114]) :=
  c1_size_guard_amended soloFs bigDec 10 [114] [] 0 true (serializePSF soloPSF)
    soloPSF [] [0, 0, 0, 0, 0, 0, 16, 8]
    (by decide) (by decide) (by decide) (by decide) (by decide) (by decide)
    (by decide) (by decide) (by decide)

/-! ## Error-kind inversion lemmas -/

/-- Container parsing only ever fails with `TruncatedError` or
`FormatError`. -/
theorem parsePSF_error_elim {fn d : List Nat} {e : Err} (h : parsePSF fn d = .error e) :
    e = .truncatedError fn ∨ e = .formatError fn := by
  simp only [parsePSF] at h
  split at h
  · exact Or.inl (by cases h; rfl)
  · split at h
    · exact Or.inr (by cases h; rfl)
    · split at h
      · exact Or.inl (by cases h; rfl)
      · split at h
        · exact Or.inl (by cases h; rfl)
        · cases h

/-- The copy step only ever fails with `CorruptDataError` or (for the
out-of-bounds `std::copy`) `undefinedBehavior`. -/
theorem copyStep_error_elim {fn exe rom : List Nat} {off sz : Nat} {e : Err}
    (h : copyStep fn exe off sz rom = .error e) :
    e = .corruptDataError fn ∨ e = .undefinedBehavior fn := by
  simp only [copyStep] at h
  split at h
  · exact Or.inl (by cases h; rfl)
  · split at h
    · cases h
    · exact Or.inr (by cases h; rfl)

/-- Every error of the lib loop originates in some recursive call. -/
theorem loadLibs_error_inv
    (loadF : List Nat → List Nat → Nat → Bool → Except Err (List Nat))
    (paths : List (List Nat)) (rom : List Nat) (nest : Nat) (first : Bool) (e : Err)
    (h : loadLibs loadF paths rom nest first = .error e) :
    ∃ p rom1 first1, loadF p rom1 (nest + 1) first1 = .error e := by
  induction paths generalizing rom first with
  | nil => simp [loadLibs] at h
  | cons p rest ih =>
    simp only [loadLibs] at h
    cases hc : loadF p rom (nest + 1) first with
    | error e2 =>
      rw [hc] at h
      cases h
      exact ⟨p, rom, first, hc⟩
    | ok rom2 =>
      rw [hc] at h
      exact ih rom2 false h

/-- Every `IntegrityError` raised anywhere in the recursion names a file
that is present, parses, and whose stored CRC32 disagrees with the CRC32
of its raw compressed payload. -/
theorem load2sf_integrity_inv (fs dec : List Nat → Option (List Nat)) :
    ∀ (fuel : Nat) (fn rom : List Nat) (nest : Nat) (first : Bool) (n : List Nat),
      load2sf fs dec fuel fn rom nest first = .error (.integrityError n) →
      ∃ bytes psf, fs n = some bytes ∧ parsePSF n bytes = .ok psf ∧
        psf.compressed_exe_crc32 ≠ crc32 psf.compressed_exe := by
  intro fuel
  induction fuel with
  | zero => intro fn rom nest first n h; simp [load2sf] at h
  | succ fuel ih =>
    intro fn rom nest first n h
    simp only [load2sf] at h
    split at h
    · simp at h
    split at h
    · simp at h
    rename_i bytes hfs
    split at h
    · rename_i e hp
      cases h
      rcases parsePSF_error_elim hp with h1 | h1 <;> simp at h1
    rename_i psf hp
    split at h
    · rename_i hcrc
      cases h
      exact ⟨bytes, psf, hfs, hp, hcrc⟩
    split at h
    · rename_i e hl
      cases h
      obtain ⟨p, rom1, first1, hcall⟩ := loadLibs_error_inv _ _ _ _ _ _ hl
      exact ih p rom1 (nest + 1) first1 n hcall
    rename_i rom2 hl
    split at h
    · simp at h
    rename_i exe hd
    split at h
    · simp at h
    split at h
    · simp at h
    split at h
    · rcases copyStep_error_elim h with h1 | h1 <;> simp at h1
    split at h
    · simp at h
    · rcases copyStep_error_elim h with h1 | h1 <;> simp at h1

/-- Claim C3: (a) whenever a container file processed at any recursion
depth (below the depth ceiling, so the file is actually reached) parses
but the CRC32 of its raw compressed payload differs from the stored
`payload_crc32` field, the call fails with `IntegrityError` naming that
file — and because every error propagates unchanged through the lib loop
to the caller, the whole load fails and, the result being `Except.error`,
no output buffer is produced; (b) conversely, if a file's stored CRC32
matches, no invocation ever raises `IntegrityError` for that file. -/
theorem c3_crc_integrity :
    (∀ (fs dec : List Nat → Option (List Nat)) (fuel : Nat) (fn rom : List Nat)
      (nest : Nat) (first : Bool) (bytes : List Nat) (psf : PSFFile),
      nest < kPSFLibMaxNestLevel →
      fs fn = some bytes →
      parsePSF fn bytes = .ok psf →
      psf.compressed_exe_crc32 ≠ crc32 psf.compressed_exe →
      load2sf fs dec (fuel + 1) fn rom nest first = .error (.integrityError fn)) ∧
    (∀ (fs dec : List Nat → Option (List Nat)) (fuel : Nat) (fn rom : List Nat)
      (nest : Nat) (first : Bool) (n bytes : List Nat) (psf : PSFFile),
      fs n = some bytes →
      parsePSF n bytes = .ok psf →
      psf.compressed_exe_crc32 = crc32 psf.compressed_exe →
      load2sf fs dec fuel fn rom nest first ≠ .error (.integrityError n)) := by
  constructor
  · intro fs dec fuel fn rom nest first bytes psf hnest hfs hparse hcrc
    simp [load2sf, Nat.not_le.mpr hnest, hfs, hparse, hcrc]
  · intro fs dec fuel fn rom nest first n bytes psf hfs hparse hcrc h
    obtain ⟨bytes2, psf2, hfs2, hparse2, hbad⟩ :=
      load2sf_integrity_inv fs dec fuel fn rom nest first n h
    rw [hfs] at hfs2
    cases hfs2
    rw [hparse] at hparse2
    cases hparse2
    exact hbad hcrc

/-- Witness for C3: (a) the concrete container whose stored CRC32 is off
by one fails with `IntegrityError`; (b) a well-checksummed single file is
never rejected with `IntegrityError`. -/
theorem c3_crc_integrity_w :
    load2sf badCrcFs nilDec 1 [114] [] 0 true = .error (.integrityError [114]) ∧
    load2sf soloFs nilDec 11 [114] [] 0 true ≠ .error (.integrityError [114]) :=
  ⟨c3_crc_integrity.1 badCrcFs nilDec 0 [114] [] 0 true (serializePSF badCrcPSF)
      badCrcPSF (by decide) (by decide) (by decide) (by decide),
   c3_crc_integrity.2 soloFs nilDec 11 [114] [] 0 true [114] (serializePSF soloPSF)
      soloPSF (by decide) (by decide) (by decide)⟩

/-! ## Lib-list computation lemmas -/

/-- A successful lookup means the list is nonempty. -/
theorem lookupTag_length_pos {m : List (List Nat × List Nat)} {k v : List Nat}
    (h : lookupTag m k = some v) : 1 ≤ m.length := by
  cases m with
  | nil => simp [lookupTag] at h
  | cons p rest => simp

/-- With `_lib` present and `_lib2` absent the lib loop runs once. -/
theorem numLibs_one {tags : List (List Nat × List Nat)} {v : List Nat}
    (h1 : lookupTag tags (libTagName 1) = some v)
    (h2 : lookupTag tags (libTagName 2) = none) : numLibs tags = 1 := by
  obtain ⟨g, hg⟩ : ∃ g, tags.length = g + 1 :=
    ⟨tags.length - 1, by have := lookupTag_length_pos h1; omega⟩
  simp [numLibs, hg, numLibsAux, h1, h2]

/-- With `_lib` absent the lib loop does not run. -/
theorem numLibs_zero {tags : List (List Nat × List Nat)}
    (h1 : lookupTag tags (libTagName 1) = none) : numLibs tags = 0 := by
  simp [numLibs, numLibsAux, h1]

/-- With `_lib` present and `_lib2` absent the followed paths are exactly
the `_lib` value. -/
theorem libPaths_one {tags : List (List Nat × List Nat)} {v : List Nat}
    (h1 : lookupTag tags (libTagName 1) = some v)
    (h2 : lookupTag tags (libTagName 2) = none) : libPaths tags = [v] := by
  simp [libPaths, numLibs_one h1 h2, show List.range 1 = [0] from rfl, h1]

/-- With `_lib` absent no paths are followed. -/
theorem libPaths_zero {tags : List (List Nat × List Nat)}
    (h1 : lookupTag tags (libTagName 1) = none) : libPaths tags = [] := by
  simp [libPaths, numLibs_zero h1]

/-- Claim C2: for every root container with exactly one `_lib` reference
to a second container (itself without references), where the library's
decompressed payload declares offset 4, size 2 with body CA FE, the root's
declares offset 0, size 4 with body 00 01 02 03, and both stored CRCs are
correct, the load succeeds with the 6-byte buffer 00 01 02 03 CA FE (the
library sized the buffer and wrote bytes 4-5 first, then the root wrote
bytes 0-3).  The second conjunct exercises the overlapping layout (library
at offset 2, size 2): the root's later-written bytes win, giving
00 01 02 03. -/
theorem c2_two_file_merge :
    (∀ (fs dec : List Nat → Option (List Nat)) (rootN libN rootB libB : List Nat)
      (rootP libP : PSFFile),
      fs rootN = some rootB →
      parsePSF rootN rootB = .ok rootP →
      rootP.compressed_exe_crc32 = crc32 rootP.compressed_exe →
      lookupTag rootP.tags (libTagName 1) = some libN →
      lookupTag rootP.tags (libTagName 2) = none →
      fs libN = some libB →
      parsePSF libN libB = .ok libP →
      libP.compressed_exe_crc32 = crc32 libP.compressed_exe →
      lookupTag libP.tags (libTagName 1) = none →
      dec libP.compressed_exe = some [4, 0, 0, 0, 2, 0, 0, 0, 202, 254] →
      dec rootP.compressed_exe = some [0, 0, 0, 0, 4, 0, 0, 0, 0, 1, 2, 3] →
      load2sfTop fs dec rootN = .ok [0, 1, 2, 3, 202, 254]) ∧
    load2sfTop exFs ovDec [114] = .ok [0, 1, 2, 3] := by
  refine ⟨?_, by decide⟩
  intro fs dec rootN libN rootB libB rootP libP hfsR hpR hcR hl1 hl2 hfsL hpL hcL hlL hdL hdR
  have hlibsR : libPaths rootP.tags = [libN] := libPaths_one hl1 hl2
  have hlibsL : libPaths libP.tags = [] := libPaths_zero hlL
  have key : ∀ fuel : Nat, load2sf fs dec (fuel + 2) rootN [] 0 true
      = .ok [0, 1, 2, 3, 202, 254] := by
    intro fuel
    simp only [load2sf, loadLibs, hfsR, hpR, hcR, hlibsR, Nat.zero_add, hfsL, hpL, hcL,
      hlibsL, hdL, hdR, ne_eq]
    norm_num [readLE4, romResize, copyStep, romWrite, kNDSRomMaxSize, kPSFLibMaxNestLevel]
  exact key 9

/-- Witness for C2: the concrete two-file scenario (`exFs`, `exDec`)
satisfies every hypothesis and yields the claimed buffer. -/
theorem c2_two_file_merge_w :
    load2sfTop exFs exDec [114] = .ok [0, 1, 2, 3, 202, 254] :=
  c2_two_file_merge.1 exFs exDec [114] [108] (serializePSF exRootPSF)
    (serializePSF exLibPSF) exRootPSF exLibPSF
    (by decide) (by decide) (by decide) (by decide) (by decide) (by decide)
    (by decide) (by decide) (by decide) (by decide) (by decide)

/-! ## Tag-fold lemmas (for C4) -/

/-- The trimmed values of the `=`-lines of `ls` whose trimmed key is `k`,
in line order. -/
def lineVals (k : List Nat) (ls : List (List Nat)) : List (List Nat) :=
  ls.filterMap (fun line =>
    match parseLine line with
    | some p => if p.1 = k then some p.2 else none
    | none => none)

/-- Join byte strings with a separating newline byte. -/
def joinNl : List (List Nat) → List Nat
  | [] => []
  | [v] => v
  | v :: w :: rest => v ++ 10 :: joinNl (w :: rest)

/-- Folding a newline into the head of a `joinNl` rearranges by
associativity. -/
theorem joinNl_append_cons (v w : List Nat) (vs : List (List Nat)) :
    joinNl ((v ++ 10 :: w) :: vs) = v ++ 10 :: joinNl (w :: vs) := by
  cases vs with
  | nil => simp [joinNl]
  | cons a r => simp [joinNl, List.append_assoc]

/-- Appending a fresh entry is found by lookup. -/
theorem lookupTag_append_self {m : List (List Nat × List Nat)} {k v : List Nat}
    (h : lookupTag m k = none) : lookupTag (m ++ [(k, v)]) k = some v := by
  induction m with
  | nil => simp [lookupTag]
  | cons p r ih =>
    simp only [lookupTag] at h ⊢
    split at h
    · cases h
    · rename_i hp
      rw [if_neg hp]
      exact ih h

/-- Appending an entry with a different key does not change a lookup. -/
theorem lookupTag_append_other {m : List (List Nat × List Nat)} {k kk v : List Nat}
    (hne : kk ≠ k) : lookupTag (m ++ [(k, v)]) kk = lookupTag m kk := by
  induction m with
  | nil =>
    simp only [List.nil_append, lookupTag]
    rw [if_neg (fun h => hne h.symm)]
  | cons p r ih =>
    simp only [lookupTag]
    split
    · rfl
    · exact ih

/-- Updating the values of entries with key `k` in place does not change a
lookup of a different key. -/
theorem lookupTag_map_update (m : List (List Nat × List Nat)) (k kk : List Nat)
    (g : List Nat × List Nat → List Nat) (hne : kk ≠ k) :
    lookupTag (m.map (fun p => if p.1 = k then (p.1, g p) else p)) kk = lookupTag m kk := by
  induction m with
  | nil => rfl
  | cons p r ih =>
    simp only [List.map_cons]
    by_cases hp : p.1 = k
    · rw [if_pos hp]
      simp only [lookupTag]
      rw [if_neg (fun h : p.1 = kk => hne (h ▸ hp)), if_neg (fun h : p.1 = kk => hne (h ▸ hp))]
      exact ih
    · rw [if_neg hp]
      simp only [lookupTag]
      split
      · rfl
      · exact ih

/-- Applying `addTag` to an absent key makes the key found with the given value. -/
theorem lookupTag_addTag_none {m : List (List Nat × List Nat)} {k v : List Nat}
    (h : lookupTag m k = none) : lookupTag (addTag m k v) k = some v := by
  simp only [addTag, h]
  exact lookupTag_append_self h

/-- Applying `addTag` to a present key appends a newline byte and the new value. -/
theorem lookupTag_addTag_some {m : List (List Nat × List Nat)} {k v w : List Nat}
    (h : lookupTag m k = some w) : lookupTag (addTag m k v) k = some (w ++ 10 :: v) := by
  simp only [addTag, h]
  induction m with
  | nil => simp [lookupTag] at h
  | cons p r ih =>
    simp only [lookupTag] at h
    by_cases hp : p.1 = k
    · rw [List.map_cons, if_pos hp]
      simp only [lookupTag, if_pos hp]
      rw [if_pos hp] at h
      cases h
      rfl
    · rw [List.map_cons, if_neg hp]
      simp only [lookupTag, if_neg hp]
      rw [if_neg hp] at h
      exact ih h

/-- The operation `addTag` leaves lookups of other keys unchanged. -/
theorem lookupTag_addTag_other {m : List (List Nat × List Nat)} {k kk v : List Nat}
    (hne : kk ≠ k) : lookupTag (addTag m k v) kk = lookupTag m kk := by
  cases hl : lookupTag m k with
  | none => simp only [addTag, hl]; exact lookupTag_append_other hne
  | some w => simp only [addTag, hl]; exact lookupTag_map_update m k kk _ hne

/-- Folding the tag lines over an accumulator that already holds `k`:
the final value of `k` joins the existing value with every further value
of `k`, separated by newlines, in line order. -/
theorem foldTags_lookup_some :
    ∀ (ls : List (List Nat)) (m : List (List Nat × List Nat)) (k w : List Nat),
      lookupTag m k = some w →
      lookupTag (ls.foldl tagStep m) k = some (joinNl (w :: lineVals k ls)) := by
  intro ls
  induction ls with
  | nil => intro m k w h; simp [lineVals, joinNl, h]
  | cons line rest ih =>
    intro m k w h
    rw [List.foldl_cons]
    cases hpl : parseLine line with
    | none =>
      rw [show tagStep m line = m by simp [tagStep, hpl]]
      rw [show lineVals k (line :: rest) = lineVals k rest by simp [lineVals, hpl]]
      exact ih m k w h
    | some kv =>
      rw [show tagStep m line = addTag m kv.1 kv.2 by simp [tagStep, hpl]]
      by_cases hk : kv.1 = k
      · subst hk
        rw [show lineVals kv.1 (line :: rest) = kv.2 :: lineVals kv.1 rest by
          simp [lineVals, hpl]]
        rw [ih (addTag m kv.1 kv.2) kv.1 (w ++ 10 :: kv.2) (lookupTag_addTag_some h)]
        rw [joinNl_append_cons]
        rfl
      · rw [show lineVals k (line :: rest) = lineVals k rest by simp [lineVals, hpl, hk]]
        exact ih _ k w (by rw [lookupTag_addTag_other (fun hh => hk hh.symm)]; exact h)

/-- Folding the tag lines over an accumulator without `k`: `k` maps to the
newline-join of its per-line values, or stays absent if no line has it. -/
theorem foldTags_lookup_none :
    ∀ (ls : List (List Nat)) (m : List (List Nat × List Nat)) (k : List Nat),
      lookupTag m k = none →
      lookupTag (ls.foldl tagStep m) k =
        if lineVals k ls = [] then none else some (joinNl (lineVals k ls)) := by
  intro ls
  induction ls with
  | nil => intro m k h; simp [lineVals, h]
  | cons line rest ih =>
    intro m k h
    rw [List.foldl_cons]
    cases hpl : parseLine line with
    | none =>
      rw [show tagStep m line = m by simp [tagStep, hpl]]
      rw [show lineVals k (line :: rest) = lineVals k rest by simp [lineVals, hpl]]
      exact ih m k h
    | some kv =>
      rw [show tagStep m line = addTag m kv.1 kv.2 by simp [tagStep, hpl]]
      by_cases hk : kv.1 = k
      · subst hk
        rw [show lineVals kv.1 (line :: rest) = kv.2 :: lineVals kv.1 rest by
          simp [lineVals, hpl]]
        rw [foldTags_lookup_some rest _ kv.1 kv.2 (lookupTag_addTag_none h)]
        simp
      · rw [show lineVals k (line :: rest) = lineVals k rest by simp [lineVals, hpl, hk]]
        exact ih _ k (by rw [lookupTag_addTag_other (fun hh => hk hh.symm)]; exact h)

/-- In-place value updates do not change per-key entry counts. -/
theorem countP_map_update (m : List (List Nat × List Nat)) (k kk : List Nat)
    (g : List Nat × List Nat → List Nat) :
    List.countP (fun p => p.1 == kk)
        (m.map (fun p => if p.1 = k then (p.1, g p) else p)) =
      List.countP (fun p => p.1 == kk) m := by
  induction m with
  | nil => rfl
  | cons p r ih =>
    by_cases hp : p.1 = k <;> simp [hp, List.countP_cons, ih]

/-- Applying `addTag` to an absent key adds exactly one entry with that key. -/
theorem countP_addTag_none {m : List (List Nat × List Nat)} {k v : List Nat}
    (h : lookupTag m k = none) :
    List.countP (fun p => p.1 == k) (addTag m k v) =
      List.countP (fun p => p.1 == k) m + 1 := by
  simp [addTag, h, List.countP_append, List.countP_cons]

/-- Applying `addTag` to a present key adds no entry. -/
theorem countP_addTag_some {m : List (List Nat × List Nat)} {k v w : List Nat}
    (h : lookupTag m k = some w) :
    List.countP (fun p => p.1 == k) (addTag m k v) =
      List.countP (fun p => p.1 == k) m := by
  simp only [addTag, h]
  exact countP_map_update m k k _

/-- The operation `addTag` never changes the entry count of a different key. -/
theorem countP_addTag_other {m : List (List Nat × List Nat)} {k kk v : List Nat}
    (hne : kk ≠ k) :
    List.countP (fun p => p.1 == kk) (addTag m k v) =
      List.countP (fun p => p.1 == kk) m := by
  cases hl : lookupTag m k with
  | none =>
    simp only [addTag, hl]
    have : ((k, v).1 == kk) = false := by
      simp only [beq_eq_false_iff_ne, ne_eq]
      exact fun hh => hne hh.symm
    simp [List.countP_append, List.countP_cons, this]
  | some w =>
    simp only [addTag, hl]
    exact countP_map_update m k kk _

/-- Folding the tag lines produces at most one entry per key: the final
count of entries with key `k` is the initial count, plus one exactly when
`k` was absent and some line carries it. -/
theorem foldTags_countP :
    ∀ (ls : List (List Nat)) (m : List (List Nat × List Nat)) (k : List Nat),
      List.countP (fun p => p.1 == k) (ls.foldl tagStep m) =
        List.countP (fun p => p.1 == k) m +
          (if lookupTag m k = none ∧ lineVals k ls ≠ [] then 1 else 0) := by
  intro ls
  induction ls with
  | nil => intro m k; simp [lineVals]
  | cons line rest ih =>
    intro m k
    rw [List.foldl_cons]
    cases hpl : parseLine line with
    | none =>
      rw [show tagStep m line = m by simp [tagStep, hpl]]
      rw [show lineVals k (line :: rest) = lineVals k rest by simp [lineVals, hpl]]
      exact ih m k
    | some kv =>
      rw [show tagStep m line = addTag m kv.1 kv.2 by simp [tagStep, hpl]]
      by_cases hk : kv.1 = k
      · subst hk
        rw [show lineVals kv.1 (line :: rest) = kv.2 :: lineVals kv.1 rest by
          simp [lineVals, hpl]]
        cases hl : lookupTag m kv.1 with
        | none =>
          rw [ih (addTag m kv.1 kv.2) kv.1]
          rw [countP_addTag_none hl, lookupTag_addTag_none hl]
          simp [hl]
        | some w =>
          rw [ih (addTag m kv.1 kv.2) kv.1]
          rw [countP_addTag_some hl, lookupTag_addTag_some hl]
          simp [hl]
      · rw [show lineVals k (line :: rest) = lineVals k rest by simp [lineVals, hpl, hk]]
        rw [ih (addTag m kv.1 kv.2) k]
        rw [countP_addTag_other (fun hh => hk hh.symm),
          lookupTag_addTag_other (fun hh => hk hh.symm)]

/-- Claim C4: for every tag text block and every trimmed key `k` appearing
on at least one `key=` line, parsing yields exactly one map entry for `k`,
whose value is the newline-join of the trimmed per-line values of `k` in
the order the lines appear in the block. -/
theorem c4_tag_fold :
    ∀ (s k : List Nat), lineVals k (glSplit s) ≠ [] →
      lookupTag (parseTagBlock s) k = some (joinNl (lineVals k (glSplit s))) ∧
      List.countP (fun p => p.1 == k) (parseTagBlock s) = 1 := by
  intro s k h
  unfold parseTagBlock
  refine ⟨?_, ?_⟩
  · rw [foldTags_lookup_none (glSplit s) [] k rfl, if_neg h]
  · rw [foldTags_countP (glSplit s) [] k]
    simp [lookupTag, h]

/-- Witness for C4: the block `a=1\na=2\na=3\n` yields the single entry
`a` mapped to `1\n2\n3`. -/
theorem c4_tag_fold_w :
    lookupTag (parseTagBlock [97, 61, 49, 10, 97, 61, 50, 10, 97, 61, 51, 10]) [97]
      = some [49, 10, 50, 10, 51] ∧
    List.countP (fun p => p.1 == [97])
      (parseTagBlock [97, 61, 49, 10, 97, 61, 50, 10, 97, 61, 51, 10]) = 1 := by
  have h := c4_tag_fold [97, 61, 49, 10, 97, 61, 50, 10, 97, 61, 51, 10] [97] (by decide)
  exact ⟨by rw [h.1]; decide, h.2⟩

/-! ## Tag serialisation emission counts (for C5) -/

/-- The number of `getline` lines of a byte string: one per newline byte,
plus one more for a nonempty final segment without terminator; in
particular 0 for the empty string. -/
def nlCount (v : List Nat) : Nat :=
  v.count 10 + (if v = [] then 0 else if v.getLast? = some 10 then 0 else 1)

/-- The splitter `glSplit` never maps a nonempty string to no lines. -/
theorem glSplit_ne_nil {s : List Nat} (h : s ≠ []) : glSplit s ≠ [] := by
  cases s with
  | nil => exact absurd rfl h
  | cons c rest =>
    simp only [glSplit]
    split
    · simp
    · split <;> simp

/-- Prepending a newline byte to a nonempty string adds one line. -/
theorem nlCount_cons_10 {r : Nat} {rs : List Nat} :
    nlCount (10 :: r :: rs) = 1 + nlCount (r :: rs) := by
  simp only [nlCount, List.count_cons, List.getLast?_cons_cons]
  simp
  omega

/-- Prepending a non-newline byte to a nonempty string keeps the line
count. -/
theorem nlCount_cons_ne {c r : Nat} {rs : List Nat} (hc : c ≠ 10) :
    nlCount (c :: r :: rs) = nlCount (r :: rs) := by
  simp [nlCount, List.count_cons, hc, List.getLast?_cons_cons]

/-- The number of `glSplit` lines is `nlCount`. -/
theorem glSplit_length : ∀ v : List Nat, (glSplit v).length = nlCount v := by
  intro v
  induction v with
  | nil => rfl
  | cons c rest ih =>
    simp only [glSplit]
    by_cases hc : c = 10
    · rw [if_pos hc]
      cases rest with
      | nil => simp [glSplit, nlCount, hc]
      | cons r rs =>
        subst hc
        rw [nlCount_cons_10, List.length_cons, ih]
        omega
    · rw [if_neg hc]
      cases rest with
      | nil => simp [glSplit, nlCount, hc, List.count_cons]
      | cons r rs =>
        cases hgs : glSplit (r :: rs) with
        | nil => exact absurd hgs (glSplit_ne_nil (by simp))
        | cons gh gt =>
          rw [nlCount_cons_ne hc, ← ih, hgs]
          simp

/-- Claim C5, amended: serialisation emits, for each map entry, exactly
`nlCount value` copies of the line `key=value\n` (where `value` is the
ENTIRE stored value including embedded newlines): that is the number of
newline bytes in the value plus one more when the value is nonempty and
does not end in a newline.  A NONEMPTY value with no embedded newline is
emitted exactly once; an empty value is emitted zero times (the
counterexample to the claim as stated). -/
theorem c5_tag_emit_amended :
    (∀ m : List (List Nat × List Nat),
      writeTags m = (m.map (fun p =>
        (List.replicate (nlCount p.2) (p.1 ++ 61 :: (p.2 ++ [10]))).flatten)).flatten) ∧
    (∀ v : List Nat, v ≠ [] → v.count 10 = 0 → nlCount v = 1) ∧
    nlCount [] = 0 := by
  refine ⟨fun m => ?_, fun v hne hcnt => ?_, rfl⟩
  · unfold writeTags
    congr 1
    apply List.map_congr_left
    intro p _
    congr 1
    rw [← glSplit_length]
    exact List.map_const' _ _
  · have hlast : v.getLast? ≠ some 10 := by
      intro heq
      have : 10 ∈ v := List.mem_of_mem_getLast? heq
      rw [← List.count_pos_iff] at this
      omega
    simp [nlCount, hne, hlast, hcnt]

/-- Claim C5 counterexample: the map entry `a` with the EMPTY stored value
has no embedded newline, so the claim says it is emitted exactly once
(`a=\n`, i.e. bytes 97 61 10), yet `PSFFile::write`'s `getline` loop runs
zero times and emits nothing. -/
theorem c5_tag_emit_cex :
    writeTags [([97], [])] = [] ∧ ([] : List Nat) ≠ [97, 61, 10] := by
  exact ⟨rfl, by decide⟩

/-- Witness for C5: a nonempty newline-free value is emitted exactly once,
at the concrete value `1` (byte 49). -/
theorem c5_tag_emit_w : nlCount [49] = 1 :=
  c5_tag_emit_amended.2.1 [49] (by decide) (by decide)

/-! ## Serialised-container access lemmas (for C6 and C8) -/

/-- The serialised tag area: nothing for an empty map, otherwise the
marker followed by the tag text. -/
def serTag (c : PSFFile) : List Nat :=
  if c.tags = [] then [] else tagMarker ++ writeTags c.tags

/-- A serialised container is the 16 header bytes, the reserved area, the
payload, and the tag area. -/
theorem serializePSF_length (c : PSFFile) :
    (serializePSF c).length =
      16 + c.reserved.length + c.compressed_exe.length + (serTag c).length := by
  simp [serializePSF, serTag, psfSignature, natLE4, List.length_append]
  omega

/-- The first three serialised bytes are the signature. -/
theorem serializePSF_take3 (c : PSFFile) : (serializePSF c).take 3 = psfSignature := by
  simp [serializePSF, psfSignature]

/-- Serialised byte 3 is the version byte. -/
theorem serializePSF_getD3 (c : PSFFile) :
    (serializePSF c).getD 3 0 = c.version % 256 := by
  simp [serializePSF, psfSignature, List.getD]

/-- Serialised bytes 4-7 hold the reserved-area length. -/
theorem serializePSF_reservedSize (c : PSFFile) :
    readLE4 ((serializePSF c).drop 4) = c.reserved.length % 4294967296 := by
  simp only [serializePSF, psfSignature, List.cons_append, List.nil_append,
    List.drop_succ_cons, List.drop_zero, natLE4]
  simp [readLE4, List.getD]
  omega

/-- Serialised bytes 8-11 hold the payload length. -/
theorem serializePSF_exeSize (c : PSFFile) :
    readLE4 ((serializePSF c).drop 8) = c.compressed_exe.length % 4294967296 := by
  simp only [serializePSF, psfSignature, List.cons_append, List.nil_append,
    List.drop_succ_cons, List.drop_zero, natLE4]
  simp [readLE4, List.getD]
  omega

/-- Serialised bytes 12-15 hold the stored CRC32. -/
theorem serializePSF_crc (c : PSFFile) :
    readLE4 ((serializePSF c).drop 12) = c.compressed_exe_crc32 % 4294967296 := by
  simp only [serializePSF, psfSignature, List.cons_append, List.nil_append,
    List.drop_succ_cons, List.drop_zero, natLE4]
  simp [readLE4, List.getD]
  omega

/-- Dropping the 16 header bytes leaves reserved, payload and tag area. -/
theorem serializePSF_drop16 (c : PSFFile) :
    (serializePSF c).drop 16 =
      c.reserved ++ (c.compressed_exe ++ serTag c) := by
  simp only [serializePSF, serTag, psfSignature, List.cons_append, List.nil_append,
    List.drop_succ_cons, List.drop_zero, natLE4, List.append_assoc]

/-- Dropping the header and reserved area leaves payload and tag area. -/
theorem serializePSF_dropRes (c : PSFFile) :
    (serializePSF c).drop (16 + c.reserved.length) = c.compressed_exe ++ serTag c := by
  rw [← List.drop_drop, serializePSF_drop16, List.drop_left]

/-- Dropping the mandatory part leaves exactly the tag area. -/
theorem serializePSF_dropMand (c : PSFFile) :
    (serializePSF c).drop (16 + c.reserved.length + c.compressed_exe.length) = serTag c := by
  rw [← List.drop_drop, serializePSF_dropRes, List.drop_left]

/-- Parsing a serialised container recovers the version byte, reserved
area, payload and stored CRC32 exactly (for fields small enough for their
binary encodings), and recovers as tags the parse of the written tag
text. -/
theorem parsePSF_serializePSF (fn : List Nat) (c : PSFFile)
    (hver : c.version < 256) (hr : c.reserved.length < 4294967296)
    (he : c.compressed_exe.length < 4294967296)
    (hcrc : c.compressed_exe_crc32 < 4294967296) :
    parsePSF fn (serializePSF c) =
      .ok ⟨c.version, c.reserved, c.compressed_exe, c.compressed_exe_crc32,
        parseTagBlock (writeTags c.tags)⟩ := by
  simp only [parsePSF]
  rw [if_neg (by rw [serializePSF_length]; omega)]
  rw [serializePSF_take3]
  rw [if_neg (by simp)]
  rw [if_neg (by rw [serializePSF_length]; omega)]
  rw [serializePSF_getD3, serializePSF_reservedSize, serializePSF_exeSize, serializePSF_crc]
  rw [Nat.mod_eq_of_lt hver, Nat.mod_eq_of_lt hr, Nat.mod_eq_of_lt he, Nat.mod_eq_of_lt hcrc]
  rw [if_neg (by rw [serializePSF_length]; omega)]
  rw [serializePSF_drop16, List.take_left' rfl, serializePSF_dropRes, List.take_left' rfl,
    serializePSF_dropMand]
  by_cases ht : c.tags = []
  · rw [if_neg (by simp [serTag, ht, tagMarker])]
    rw [ht]
    rfl
  · rw [if_pos ⟨by rw [serializePSF_length]; simp [serTag, ht, tagMarker],
      by simp only [serTag, if_neg ht]; exact List.take_left' rfl⟩]
    rw [← List.drop_drop, serializePSF_dropMand]
    simp only [serTag, if_neg ht]
    rw [List.drop_left' (by rfl)]

/-! ## Tag round trip under well-formedness (for C6) -/

/-- Tag maps that survive the write/parse cycle: keys are pairwise
distinct; keys and values are nonempty and already trimmed; keys contain
no `=` and no newline; values contain no newline.  (These conditions are
inherent to the textual `key=value` format; the value-nonemptiness
condition is what the empty-value counterexample forces.) -/
def wellFormedTags (m : List (List Nat × List Nat)) : Prop :=
  (m.map Prod.fst).Nodup ∧
  ∀ p ∈ m, p.1 ≠ [] ∧ p.2 ≠ [] ∧ 61 ∉ p.1 ∧ 10 ∉ p.1 ∧ 10 ∉ p.2 ∧
    trimBytes p.1 = p.1 ∧ trimBytes p.2 = p.2

instance (m : List (List Nat × List Nat)) : Decidable (wellFormedTags m) := by
  unfold wellFormedTags
  infer_instance

/-- The function `takeWhile` stops exactly at the first failing element. -/
theorem takeWhile_append_stop {p : Nat → Bool} {a : List Nat} {b : Nat} {rest : List Nat}
    (ha : ∀ x ∈ a, p x = true) (hb : p b = false) :
    (a ++ b :: rest).takeWhile p = a := by
  induction a with
  | nil => simp [List.takeWhile_cons, hb]
  | cons x xs ih =>
    simp only [List.cons_append, List.takeWhile_cons, ha x (by simp)]
    rw [ih (fun y hy => ha y (by simp [hy]))]
    simp

/-- The function `dropWhile` resumes exactly at the first failing element. -/
theorem dropWhile_append_stop {p : Nat → Bool} {a : List Nat} {b : Nat} {rest : List Nat}
    (ha : ∀ x ∈ a, p x = true) (hb : p b = false) :
    (a ++ b :: rest).dropWhile p = b :: rest := by
  induction a with
  | nil => simp [List.dropWhile_cons, hb]
  | cons x xs ih =>
    simp only [List.cons_append, List.dropWhile_cons, ha x (by simp)]
    exact ih (fun y hy => ha y (by simp [hy]))

/-- A nonempty newline-free byte string is one `getline` line. -/
theorem glSplit_single {v : List Nat} (h10 : (10 : Nat) ∉ v) (hne : v ≠ []) :
    glSplit v = [v] := by
  induction v with
  | nil => exact absurd rfl hne
  | cons c rest ih =>
    have hc : c ≠ 10 := fun h => h10 (h ▸ List.mem_cons_self c rest)
    simp only [glSplit, if_neg hc]
    cases rest with
    | nil => rfl
    | cons r rs =>
      rw [ih (fun h => h10 (List.mem_cons_of_mem c h)) (by simp)]

/-- Splitting off one newline-terminated newline-free line. -/
theorem glSplit_append_line {a rest : List Nat} (h10 : (10 : Nat) ∉ a) :
    glSplit (a ++ 10 :: rest) = a :: glSplit rest := by
  induction a with
  | nil => simp [glSplit]
  | cons c cs ih =>
    have hc : c ≠ 10 := fun h => h10 (h ▸ List.mem_cons_self c cs)
    rw [List.cons_append]
    simp only [glSplit, if_neg hc, ih (fun h => h10 (List.mem_cons_of_mem c h))]

/-- A key absent from the key list is not found. -/
theorem lookupTag_eq_none_of_not_mem {m : List (List Nat × List Nat)} {k : List Nat}
    (h : k ∉ m.map Prod.fst) : lookupTag m k = none := by
  induction m with
  | nil => rfl
  | cons p r ih =>
    simp only [List.map_cons, List.mem_cons, not_or] at h
    simp only [lookupTag, if_neg (fun hh : p.1 = k => h.1 hh.symm)]
    exact ih h.2

/-- Parsing a well-formed `key=value` line recovers key and value. -/
theorem parseLine_entry {k v : List Nat} (h61 : (61 : Nat) ∉ k)
    (htk : trimBytes k = k) (htv : trimBytes v = v) :
    parseLine (k ++ 61 :: v) = some (k, v) := by
  simp only [parseLine]
  rw [if_pos (by simp [List.any_append])]
  rw [takeWhile_append_stop (p := fun c => decide (c ≠ 61))
      (fun x hx => by simp; exact fun hh => h61 (hh ▸ hx)) (by simp)]
  rw [dropWhile_append_stop (p := fun c => decide (c ≠ 61))
      (fun x hx => by simp; exact fun hh => h61 (hh ▸ hx)) (by simp)]
  simp only [List.drop_succ_cons, List.drop_zero, htk, htv]

/-- Folding well-formed lines with pairwise-fresh keys appends the
entries in order. -/
theorem foldTags_write :
    ∀ (m m0 : List (List Nat × List Nat)),
      (m.map Prod.fst).Nodup →
      (∀ p ∈ m, parseLine (p.1 ++ 61 :: p.2) = some (p.1, p.2)) →
      (∀ p ∈ m, p.1 ∉ m0.map Prod.fst) →
      List.foldl tagStep m0 (m.map (fun p => p.1 ++ 61 :: p.2)) = m0 ++ m := by
  intro m
  induction m with
  | nil => intro m0 _ _ _; simp
  | cons p r ih =>
    intro m0 hnodup hparse hfresh
    rw [List.map_cons, List.foldl_cons]
    rw [show tagStep m0 (p.1 ++ 61 :: p.2) = addTag m0 p.1 p.2 by
      simp [tagStep, hparse p (by simp)]]
    rw [show addTag m0 p.1 p.2 = m0 ++ [p] by
      simp [addTag, lookupTag_eq_none_of_not_mem (hfresh p (by simp))]]
    rw [List.map_cons] at hnodup
    rw [ih (m0 ++ [p]) hnodup.of_cons
      (fun q hq => hparse q (by simp [hq]))
      (fun q hq => by
        simp only [List.map_append, List.mem_append, not_or]
        refine ⟨hfresh q (by simp [hq]), ?_⟩
        simp only [List.map_cons, List.map_nil, List.mem_singleton]
        intro hqe
        exact (List.nodup_cons.mp hnodup).1 (hqe ▸ List.mem_map_of_mem Prod.fst hq))]
    simp

/-- One `key=value\n` line is written per well-formed entry. -/
theorem writeTags_lines {m : List (List Nat × List Nat)} (wf : wellFormedTags m) :
    glSplit (writeTags m) = m.map (fun p => p.1 ++ 61 :: p.2) := by
  induction m with
  | nil => rfl
  | cons p r ih =>
    obtain ⟨hk, hv, h61, h10k, h10v, _, _⟩ := wf.2 p (by simp)
    have hblock : writeTags (p :: r) = (p.1 ++ 61 :: p.2) ++ 10 :: writeTags r := by
      simp only [writeTags, List.map_cons, List.flatten_cons, glSplit_single h10v hv,
        List.map_cons, List.map_nil, List.flatten_cons, List.flatten_nil, List.append_nil]
      simp [List.append_assoc]
    rw [hblock, glSplit_append_line (by
      simp only [List.mem_append, List.mem_cons, not_or]
      exact ⟨h10k, by omega, h10v⟩)]
    rw [ih ⟨(List.nodup_cons.mp (List.map_cons Prod.fst p r ▸ wf.1)).2,
      fun q hq => wf.2 q (by simp [hq])⟩]
    rw [List.map_cons]

/-- Parsing the written tag text of a well-formed tag map recovers it
exactly. -/
theorem parseTagBlock_writeTags {m : List (List Nat × List Nat)} (wf : wellFormedTags m) :
    parseTagBlock (writeTags m) = m := by
  unfold parseTagBlock
  rw [writeTags_lines wf]
  rw [foldTags_write m [] wf.1
    (fun p hp => by
      obtain ⟨_, _, h61, _, _, htk, htv⟩ := wf.2 p hp
      exact parseLine_entry h61 htk htv)
    (fun p _ => by simp)]
  simp

/-- The container of the C6 counterexample: one tag `a` whose value is
empty (and in particular contains no internal newline). -/
def emptyValPSF : PSFFile := ⟨36, [], [], 0, [([97], [])]⟩

/-- Claim C6, amended: for every container whose version byte and length
and CRC fields fit their binary encodings, parsing the serialised bytes
reproduces version, reserved bytes, payload bytes and stored CRC32
exactly; the tag map also round-trips exactly whenever it is well formed
(`wellFormedTags`): distinct keys, keys and values nonempty and trimmed,
no `=` or newline in keys, and — beyond the original claim's "no internal
newline in values" — no value empty (the counterexample shows an
empty-valued tag is silently dropped by the write/parse cycle). -/
theorem c6_round_trip_amended :
    ∀ (fn : List Nat) (c : PSFFile),
      c.version < 256 → c.reserved.length < 4294967296 →
      c.compressed_exe.length < 4294967296 → c.compressed_exe_crc32 < 4294967296 →
      ∃ c2, parsePSF fn (serializePSF c) = .ok c2 ∧
        c2.version = c.version ∧ c2.reserved = c.reserved ∧
        c2.compressed_exe = c.compressed_exe ∧
        c2.compressed_exe_crc32 = c.compressed_exe_crc32 ∧
        (wellFormedTags c.tags → c2.tags = c.tags) := by
  intro fn c h1 h2 h3 h4
  exact ⟨_, parsePSF_serializePSF fn c h1 h2 h3 h4, rfl, rfl, rfl, rfl,
    fun wf => parseTagBlock_writeTags wf⟩

/-- Claim C6 counterexample: `emptyValPSF` carries the tag `a` with the
empty value — no tag value contains an internal newline, so the claim as
stated promises an exact tag round trip — yet parsing the serialised
bytes yields an empty tag map: the entry is lost. -/
theorem c6_round_trip_cex :
    emptyValPSF.tags = [([97], [])] ∧ (10 : Nat) ∉ ([] : List Nat) ∧
    parsePSF [] (serializePSF emptyValPSF) = .ok ⟨36, [], [], 0, []⟩ ∧
    ([] : List (List Nat × List Nat)) ≠ emptyValPSF.tags := by
  exact ⟨rfl, by decide, by decide, by decide⟩

/-- Witness for C6: the two-file-scenario root container (version 0x24,
one well-formed `_lib` tag) round-trips completely. -/
theorem c6_round_trip_w :
    parsePSF [] (serializePSF exRootPSF) = .ok exRootPSF := by
  obtain ⟨c2, hp, h1, h2, h3, h4, h5⟩ :=
    c6_round_trip_amended [] exRootPSF (by decide) (by decide) (by decide) (by decide)
  have ht : c2.tags = exRootPSF.tags := h5 (by decide)
  rw [hp]
  cases c2
  simp only at h1 h2 h3 h4 ht
  rw [h1, h2, h3, h4, ht]

/-! ## Parse inversion and the tag-attach condition (for C8) -/

/-- Whether a parse result is a success. -/
def parseOk : Except Err PSFFile → Bool
  | .ok _ => true
  | .error _ => false

/-- The reader `readLE4` only reads the first four bytes. -/
theorem readLE4_append_left {a : List Nat} (b : List Nat) (h : 4 ≤ a.length) :
    readLE4 (a ++ b) = readLE4 a := by
  simp only [readLE4]
  rw [List.getD_append _ _ _ _ (by omega), List.getD_append _ _ _ _ (by omega),
    List.getD_append _ _ _ _ (by omega), List.getD_append _ _ _ _ (by omega)]

/-- Everything a successful container parse tells us about the input. -/
theorem parsePSF_ok_inv {fn d : List Nat} {c : PSFFile} (h : parsePSF fn d = .ok c) :
    ¬d.length < 3 ∧ d.take 3 = psfSignature ∧ ¬d.length < 16 ∧
    ¬16 + readLE4 (d.drop 4) + readLE4 (d.drop 8) > d.length ∧
    c.version = d.getD 3 0 ∧
    c.reserved = (d.drop 16).take (readLE4 (d.drop 4)) ∧
    c.compressed_exe = (d.drop (16 + readLE4 (d.drop 4))).take (readLE4 (d.drop 8)) ∧
    c.compressed_exe_crc32 = readLE4 (d.drop 12) ∧
    c.tags = (if 16 + readLE4 (d.drop 4) + readLE4 (d.drop 8) + 5 ≤ d.length ∧
        (d.drop (16 + readLE4 (d.drop 4) + readLE4 (d.drop 8))).take 5 = tagMarker
      then parseTagBlock (d.drop (16 + readLE4 (d.drop 4) + readLE4 (d.drop 8) + 5))
      else []) := by
  simp only [parsePSF] at h
  split at h
  · cases h
  split at h
  · cases h
  split at h
  · cases h
  split at h
  · cases h
  rename_i h1 h2 h3 h4
  cases h
  refine ⟨h1, by simpa using h2, h3, h4, rfl, rfl, rfl, rfl, rfl⟩

/-- Claim C8: a successful container parse attaches a tag section exactly
when at least five bytes follow the mandatory part and those five bytes
are the tag marker, in which case the tags are the parse of the remaining
bytes; and appending arbitrary trailing bytes to a parseable container
never makes parsing fail. -/
theorem c8_tag_attach :
    (∀ (fn d : List Nat) (c : PSFFile), parsePSF fn d = .ok c →
      c.tags = (if 16 + c.reserved.length + c.compressed_exe.length + 5 ≤ d.length ∧
          (d.drop (16 + c.reserved.length + c.compressed_exe.length)).take 5 = tagMarker
        then parseTagBlock (d.drop (16 + c.reserved.length + c.compressed_exe.length + 5))
        else [])) ∧
    (∀ (fn d trailing : List Nat) (c : PSFFile), parsePSF fn d = .ok c →
      parseOk (parsePSF fn (d ++ trailing)) = true) := by
  constructor
  · intro fn d c h
    obtain ⟨h1, h2, h3, h4, hv, hres, hexe, hcrc, htags⟩ := parsePSF_ok_inv h
    have hr : c.reserved.length = readLE4 (d.drop 4) := by
      rw [hres]
      simp only [List.length_take, List.length_drop]
      omega
    have he : c.compressed_exe.length = readLE4 (d.drop 8) := by
      rw [hexe]
      simp only [List.length_take, List.length_drop]
      omega
    rw [htags, hr, he]
  · intro fn d t c h
    obtain ⟨h1, h2, h3, h4, _, _, _, _, _⟩ := parsePSF_ok_inv h
    simp only [parsePSF]
    rw [List.drop_append_of_le_length (show (4 : Nat) ≤ d.length by omega),
      readLE4_append_left t (by simp only [List.length_drop]; omega)]
    rw [List.drop_append_of_le_length (show (8 : Nat) ≤ d.length by omega),
      readLE4_append_left t (by simp only [List.length_drop]; omega)]
    rw [List.length_append]
    rw [if_neg (show ¬d.length + t.length < 3 by omega)]
    rw [List.take_append_of_le_length (show (3 : Nat) ≤ d.length by omega), h2]
    rw [if_neg (by simp)]
    rw [if_neg (show ¬d.length + t.length < 16 by omega)]
    rw [if_neg (show ¬16 + readLE4 (d.drop 4) + readLE4 (d.drop 8) > d.length + t.length
      by omega)]
    rfl

/-- Witness for C8: for the concrete tagless container, the theorem's
attach condition evaluates to an empty tag map, and parsing with trailing
garbage `[1, 2, 3]` appended still succeeds. -/
theorem c8_tag_attach_w :
    soloPSF.tags = ([] : List (List Nat × List Nat)) ∧
    parseOk (parsePSF [114] (serializePSF soloPSF ++ [1, 2, 3])) = true := by
  constructor
  · rw [c8_tag_attach.1 [114] (serializePSF soloPSF) soloPSF (by decide)]
    decide
  · exact c8_tag_attach.2 [114] (serializePSF soloPSF) [1, 2, 3] soloPSF (by decide)

/-! ## Directory-context discipline (for C9) -/

/-- The lib loop of the directory-context variant always hands back the
`pwd` saved by its caller, on the success exit and on the error exit (the
`chdir(pwd)` after the nested call and in the `catch` before the
rethrow). -/
theorem loadLibsD_cwd
    (loadF : List Nat → List Nat → Nat → Bool → List Nat → Except Err (List Nat) × List Nat)
    (paths : List (List Nat)) (rom : List Nat) (nest : Nat) (first : Bool)
    (basedir pwd : List Nat) :
    (loadLibsD loadF paths rom nest first basedir pwd).2 = pwd := by
  induction paths generalizing rom first with
  | nil => rfl
  | cons p rest ih =>
    simp only [loadLibsD]
    split
    · rfl
    · exact ih _ _

/-- Claim C9: in the directory-context variant of the loader, every exit
path of every invocation — success or failure, at any depth and with any
collaborators — leaves the working directory exactly as it found it; the
recursive library call itself is entered with the working directory set to
the referencing file's directory (`dirF (absF cwd fn)` in the definition
of `load2sfD`), so relative references resolve against that file's
location.  In particular a top-level load never changes the caller's
working directory. -/
theorem c9_cwd_restore :
    ∀ (fs dec : List Nat → Option (List Nat))
      (absF : List Nat → List Nat → List Nat) (dirF : List Nat → List Nat)
      (fuel : Nat) (fn rom : List Nat) (nest : Nat) (first : Bool) (cwd : List Nat),
      (load2sfD fs dec absF dirF fuel fn rom nest first cwd).2 = cwd := by
  intro fs dec absF dirF fuel fn rom nest first cwd
  cases fuel with
  | zero => rfl
  | succ fuel =>
    simp only [load2sfD]
    split
    · rfl
    split
    · rfl
    split
    · rfl
    split
    · rfl
    split
    · rename_i e cwd2 heq
      exact ((congrArg Prod.snd heq).symm).trans (loadLibsD_cwd _ _ _ _ _ _ _)
    · rename_i rom2 cwd2 heq
      have hc2 : cwd2 = cwd :=
        ((congrArg Prod.snd heq).symm).trans (loadLibsD_cwd _ _ _ _ _ _ _)
      split
      · exact hc2
      split
      · exact hc2
      split
      · exact hc2
      split
      · exact hc2
      split
      · exact hc2
      · exact hc2

/-! ## The instrumented loader projects to the plain loader (for C10) -/

/-- The plain `copyStep` is the first component of `copyStepT`. -/
theorem copyStep_proj (fn exe : List Nat) (off sz : Nat) (rom : List Nat) :
    copyStep fn exe off sz rom = (copyStepT fn exe off sz rom).map Prod.fst := by
  simp only [copyStep, copyStepT]
  split
  · rfl
  split
  · rfl
  · rfl

/-- The plain lib loop is the first component of the instrumented one,
given that the load functions agree likewise. -/
theorem loadLibs_proj
    (loadF : List Nat → List Nat → Nat → Bool → Except Err (List Nat))
    (loadFT : List Nat → List Nat → Nat → Bool → Except Err (List Nat × List (Nat × Nat)))
    (hproj : ∀ p rom nest first,
      loadF p rom nest first = (loadFT p rom nest first).map Prod.fst) :
    ∀ (paths : List (List Nat)) (rom : List Nat) (nest : Nat) (first : Bool),
      loadLibs loadF paths rom nest first =
        (loadLibsT loadFT paths rom nest first).map Prod.fst := by
  intro paths
  induction paths with
  | nil => intro rom nest first; rfl
  | cons p rest ih =>
    intro rom nest first
    simp only [loadLibs, loadLibsT, hproj]
    cases hc : loadFT p rom (nest + 1) first with
    | error e => simp [Except.map]
    | ok pr =>
      simp only [Except.map, ih pr.1 nest false]
      cases hr : loadLibsT loadFT rest pr.1 nest false with
      | error e => simp [Except.map]
      | ok qr => simp [Except.map]

/-- The plain loader is the first component of the instrumented one. -/
theorem load2sf_proj (fs dec : List Nat → Option (List Nat)) :
    ∀ (fuel : Nat) (fn rom : List Nat) (nest : Nat) (first : Bool),
      load2sf fs dec fuel fn rom nest first =
        (load2sfT fs dec fuel fn rom nest first).map Prod.fst := by
  intro fuel
  induction fuel with
  | zero => intro fn rom nest first; rfl
  | succ fuel ih =>
    intro fn rom nest first
    simp only [load2sf, load2sfT]
    by_cases hnest : kPSFLibMaxNestLevel ≤ nest
    · simp [hnest, Except.map]
    simp only [if_neg hnest]
    cases hfs : fs fn with
    | none => simp [Except.map]
    | some bytes =>
      simp only []
      cases hp : parsePSF fn bytes with
      | error e => simp [Except.map]
      | ok psf =>
        simp only []
        by_cases hcrc : psf.compressed_exe_crc32 ≠ crc32 psf.compressed_exe
        · simp [hcrc, Except.map]
        simp only [if_neg hcrc]
        rw [loadLibs_proj (load2sf fs dec fuel) (load2sfT fs dec fuel)
          (fun p r n f => ih p r n f)]
        cases hl : loadLibsT (load2sfT fs dec fuel) (libPaths psf.tags) rom nest first with
        | error e => simp [Except.map]
        | ok pr =>
          simp only [Except.map]
          cases hd : dec psf.compressed_exe with
          | none => simp [Except.map]
          | some exe =>
            simp only []
            by_cases hlen : exe.length < 8
            · simp [hlen, Except.map]
            simp only [if_neg hlen]
            by_cases hsz : kNDSRomMaxSize <
              (readLE4 exe + readLE4 (exe.drop 4)) % 4294967296
            · simp [hsz, Except.map]
            simp only [if_neg hsz]
            by_cases hf2 : (first && (libPaths psf.tags).isEmpty) = true
            · simp only [hf2, if_true, copyStep_proj]
              cases hcs : copyStepT fn exe (readLE4 exe) (readLE4 (exe.drop 4))
                  (romResize pr.1 ((readLE4 exe + readLE4 (exe.drop 4)) % 4294967296)) with
              | error e => simp [Except.map]
              | ok qr => simp [Except.map]
            · simp only [Bool.not_eq_true] at hf2
              simp only [hf2, Bool.false_eq_true, if_false]
              by_cases hbnd : pr.1.length < (readLE4 exe + readLE4 (exe.drop 4)) % 4294967296
              · simp [hbnd, Except.map]
              simp only [if_neg hbnd, copyStep_proj]
              cases hcs : copyStepT fn exe (readLE4 exe) (readLE4 (exe.drop 4)) pr.1 with
              | error e => simp [Except.map]
              | ok qr => simp [Except.map]

/-! ## Buffer frame lemmas (for C10) -/

/-- Index `i` lies outside every written range of `R`. -/
def outsideRanges (R : List (Nat × Nat)) (i : Nat) : Prop :=
  ∀ r ∈ R, i < r.1 ∨ r.1 + r.2 ≤ i

instance (R : List (Nat × Nat)) (i : Nat) : Decidable (outsideRanges R i) := by
  unfold outsideRanges
  infer_instance

/-- An in-bounds overwrite preserves the buffer length. -/
theorem romWrite_length {rom data : List Nat} {off : Nat}
    (h : off + data.length ≤ rom.length) :
    (romWrite rom off data).length = rom.length := by
  simp only [romWrite, List.length_append, List.length_take, List.length_drop]
  omega

/-- An in-bounds overwrite leaves bytes below the range unchanged. -/
theorem romWrite_getD_lt {rom data : List Nat} {off i : Nat}
    (hoff : off ≤ rom.length) (h : i < off) :
    (romWrite rom off data).getD i 0 = rom.getD i 0 := by
  simp only [romWrite]
  rw [List.getD_append _ _ _ _ (by simp only [List.length_append, List.length_take]; omega)]
  rw [List.getD_append _ _ _ _ (by simp only [List.length_take]; omega)]
  simp [List.getD, List.getElem?_take, h]

/-- An in-bounds overwrite leaves bytes at or above the range's end
unchanged. -/
theorem romWrite_getD_ge {rom data : List Nat} {off i : Nat}
    (hlen : off + data.length ≤ rom.length) (h : off + data.length ≤ i) :
    (romWrite rom off data).getD i 0 = rom.getD i 0 := by
  simp only [romWrite]
  rw [List.getD_append_right _ _ _ _
    (by simp only [List.length_append, List.length_take]; omega)]
  simp only [List.length_append, List.length_take, List.getD]
  rw [Nat.min_eq_left (show off ≤ rom.length by omega), List.get?_drop]
  rw [show off + data.length + (i - (off + data.length)) = i by omega]

/-- Reading a zero-filled buffer with default zero always gives zero. -/
theorem getD_replicate_zero (n i : Nat) : (List.replicate n (0 : Nat)).getD i 0 = 0 := by
  induction n generalizing i with
  | zero => simp [List.getD]
  | succ n ih =>
    cases i with
    | zero => rfl
    | succ j =>
      rw [List.replicate_succ, List.getD_cons_succ]
      exact ih j

/-- Every byte of a resize of the empty buffer is zero (in or out of
range, reading with default 0). -/
theorem romResize_nil_getD (n i : Nat) : (romResize [] n).getD i 0 = 0 := by
  simp only [romResize, List.length_nil]
  split
  · simp [List.getD]
  · rw [List.nil_append]
    exact getD_replicate_zero _ _

/-- Inversion of a successful instrumented copy step: the recorded range
is the declared one, the write stayed in bounds, the length is preserved,
and bytes outside the declared range are untouched. -/
theorem copyStepT_ok_inv {fn exe rom rom3 : List Nat} {off sz : Nat}
    {R2 : List (Nat × Nat)}
    (h : copyStepT fn exe off sz rom = .ok (rom3, R2)) :
    R2 = [(off, sz)] ∧ off + sz ≤ rom.length ∧ rom3.length = rom.length ∧
      ∀ i, i < off ∨ off + sz ≤ i → rom3.getD i 0 = rom.getD i 0 := by
  simp only [copyStepT] at h
  split at h
  · cases h
  split at h
  · rename_i hguard
    cases h
    have hdata : ((exe.drop 8).take sz).length = sz := by
      simp only [List.length_take, List.length_drop]
      omega
    refine ⟨rfl, hguard.2, ?_, ?_⟩
    · rw [romWrite_length (by rw [hdata]; exact hguard.2)]
    · intro i hi
      rcases hi with hi | hi
      · exact romWrite_getD_lt (by omega) hi
      · exact romWrite_getD_ge (by rw [hdata]; exact hguard.2) (by rw [hdata]; exact hi)
  · cases h

/-- Lying outside a concatenation of range lists is lying outside both. -/
theorem outsideRanges_append {R1 R2 : List (Nat × Nat)} {i : Nat} :
    outsideRanges (R1 ++ R2) i ↔ outsideRanges R1 i ∧ outsideRanges R2 i := by
  simp [outsideRanges, List.mem_append, or_imp, forall_and]

/-- Frame invariant of the instrumented lib loop, given the invariant for
the nested loads: with `first_load` false the buffer keeps its length and
every byte outside the recorded ranges; with `first_load` true and an
empty incoming buffer every byte outside the recorded ranges of the
result reads zero. -/
theorem loadLibsT_frame
    (loadFT : List Nat → List Nat → Nat → Bool → Except Err (List Nat × List (Nat × Nat)))
    (hF : ∀ p rom nest first rom2 R, loadFT p rom nest first = .ok (rom2, R) →
      (first = false → rom2.length = rom.length ∧
        ∀ i, outsideRanges R i → rom2.getD i 0 = rom.getD i 0) ∧
      (first = true → rom = [] → ∀ i, outsideRanges R i → rom2.getD i 0 = 0)) :
    ∀ (paths : List (List Nat)) (rom : List Nat) (nest : Nat) (first : Bool)
      (rom2 : List Nat) (R : List (Nat × Nat)),
      loadLibsT loadFT paths rom nest first = .ok (rom2, R) →
      (first = false → rom2.length = rom.length ∧
        ∀ i, outsideRanges R i → rom2.getD i 0 = rom.getD i 0) ∧
      (first = true → rom = [] → ∀ i, outsideRanges R i → rom2.getD i 0 = 0) := by
  intro paths
  induction paths with
  | nil =>
    intro rom nest first rom2 R h
    cases h
    exact ⟨fun _ => ⟨rfl, fun i _ => rfl⟩,
      fun _ hrom i _ => by subst hrom; simp [List.getD]⟩
  | cons p rest ih =>
    intro rom nest first rom2 R h
    simp only [loadLibsT] at h
    split at h
    · cases h
    rename_i rom1 R1 heq1
    split at h
    · cases h
    rename_i rom3 R2 heq2
    cases h
    have hrest := (ih rom1 nest false rom2 R2 heq2).1 rfl
    constructor
    · intro hf
      subst hf
      have hhead := (hF p rom (nest + 1) false rom1 R1 heq1).1 rfl
      refine ⟨hrest.1.trans hhead.1, fun i hi => ?_⟩
      obtain ⟨hi1, hi2⟩ := outsideRanges_append.mp hi
      exact (hrest.2 i hi2).trans (hhead.2 i hi1)
    · intro hf hrom
      subst hf
      subst hrom
      have hhead := (hF p [] (nest + 1) true rom1 R1 heq1).2 rfl rfl
      intro i hi
      obtain ⟨hi1, hi2⟩ := outsideRanges_append.mp hi
      exact (hrest.2 i hi2).trans (hhead i hi1)

/-- Frame invariant of the instrumented loader: a call with `first_load`
false preserves the buffer length and every byte outside the ranges its
subtree writes; a call with `first_load` true on the empty buffer leaves
zero in every byte outside the ranges its subtree writes. -/
theorem load2sfT_frame (fs dec : List Nat → Option (List Nat)) :
    ∀ (fuel : Nat) (fn rom : List Nat) (nest : Nat) (first : Bool)
      (rom2 : List Nat) (R : List (Nat × Nat)),
      load2sfT fs dec fuel fn rom nest first = .ok (rom2, R) →
      (first = false → rom2.length = rom.length ∧
        ∀ i, outsideRanges R i → rom2.getD i 0 = rom.getD i 0) ∧
      (first = true → rom = [] → ∀ i, outsideRanges R i → rom2.getD i 0 = 0) := by
  intro fuel
  induction fuel with
  | zero => intro fn rom nest first rom2 R h; cases h
  | succ fuel ih =>
    intro fn rom nest first rom2 R h
    simp only [load2sfT] at h
    split at h
    · cases h
    split at h
    · cases h
    rename_i bytes hfs
    split at h
    · cases h
    rename_i psf hp
    split at h
    · cases h
    split at h
    · cases h
    rename_i romL RL heql
    split at h
    · cases h
    rename_i exe hd
    split at h
    · cases h
    split at h
    · cases h
    have hlibs := loadLibsT_frame (load2sfT fs dec fuel)
      (fun p r n f r2 R2 hh => ih p r n f r2 R2 hh)
      (libPaths psf.tags) rom nest first romL RL heql
    split at h
    · cases h
    rename_i rom3 r2 hcs
    cases h
    split at hcs
    · -- first payload: resize then copy
      rename_i hf2
      rw [Bool.and_eq_true, List.isEmpty_iff] at hf2
      obtain ⟨hfirst, hpaths⟩ := hf2
      rw [hpaths] at heql
      simp only [loadLibsT] at heql
      cases heql
      obtain ⟨hr2, hbound, hlen3, hframe3⟩ := copyStepT_ok_inv hcs
      constructor
      · intro hf
        rw [hf] at hfirst
        cases hfirst
      · intro _ hrom
        subst hrom
        intro i hi
        rw [hr2] at hi
        obtain ⟨-, hi2⟩ := outsideRanges_append.mp hi
        have hout : i < readLE4 exe ∨ readLE4 exe + readLE4 (exe.drop 4) ≤ i :=
          hi2 (readLE4 exe, readLE4 (exe.drop 4)) (by simp)
        rw [hframe3 i hout]
        exact romResize_nil_getD _ _
    · -- later payload: bounds check then copy
      split at hcs
      · cases hcs
      rename_i hbnd
      obtain ⟨hr2, hbound, hlen3, hframe3⟩ := copyStepT_ok_inv hcs
      constructor
      · intro hf
        have hl1 := hlibs.1 hf
        refine ⟨hlen3.trans hl1.1, fun i hi => ?_⟩
        rw [hr2] at hi
        obtain ⟨hi1, hi2⟩ := outsideRanges_append.mp hi
        have hout : i < readLE4 exe ∨ readLE4 exe + readLE4 (exe.drop 4) ≤ i :=
          hi2 (readLE4 exe, readLE4 (exe.drop 4)) (by simp)
        exact (hframe3 i hout).trans (hl1.2 i hi1)
      · intro hf hrom
        have hl2 := hlibs.2 hf hrom
        intro i hi
        rw [hr2] at hi
        obtain ⟨hi1, hi2⟩ := outsideRanges_append.mp hi
        have hout : i < readLE4 exe ∨ readLE4 exe + readLE4 (exe.drop 4) ≤ i :=
          hi2 (readLE4 exe, readLE4 (exe.drop 4)) (by simp)
        exact (hframe3 i hout).trans (hl2 i hi1)

/-- Claim C10: for every successful top-level load, with `R` the ranges
`(load_offset, load_size)` of all payloads written during the recursion
(in write order, as recorded by the instrumented loader, which projects to
the plain loader), every byte of the returned buffer outside the union of
those ranges is zero: the buffer is sized and zero-filled by the first
payload processed, and every subsequent payload writes only within its own
declared range. -/
theorem c10_zero_outside :
    ∀ (fs dec : List Nat → Option (List Nat)) (fn rom2 : List Nat) (R : List (Nat × Nat)),
      load2sfT fs dec 11 fn [] 0 true = .ok (rom2, R) →
      load2sfTop fs dec fn = .ok rom2 ∧
      ∀ i, outsideRanges R i → rom2.getD i 0 = 0 := by
  intro fs dec fn rom2 R h
  constructor
  · unfold load2sfTop
    rw [load2sf_proj, h]
    rfl
  · exact (load2sfT_frame fs dec 11 fn [] 0 true rom2 R h).2 rfl rfl

/-- Witness for C10: the gap scenario (single payload at offset 2, size 1)
loads to the buffer 00 00 07, whose bytes 0 and 1 — outside the sole
written range — are zero. -/
theorem c10_zero_outside_w :
    load2sfTop gapFs gapDec [115] = .ok [0, 0, 7] ∧
    ([0, 0, 7] : List Nat).getD 0 0 = 0 ∧ ([0, 0, 7] : List Nat).getD 1 0 = 0 := by
  have h := c10_zero_outside gapFs gapDec [115] [0, 0, 7] [(2, 1)] (by decide)
  exact ⟨h.1, h.2 0 (by decide), h.2 1 (by decide)⟩

end TwoSF
